import Mathlib

/-!
Verification of the header/footer text-association script in
`extract_tables.py`: a shallow embedding of its helper functions
(`reverse_strings`, `extract_header_above_table`,
`extract_lines_below_table`) and of the per-page body of `process_pdf`,
together with proofs of the documented properties.

Modelling conventions:
* Python strings are Lean `String`s; `s[::-1]` is `strRev`, `str.strip()`
  is `pyStrip` (drop leading/trailing whitespace), `str.splitlines()` is
  `pySplitlines` (split on the newline character).
* Page coordinates are rationals (the source uses floats only through
  comparisons, `max`/`min`, `+` and `-`, all exact here).
* A pdfplumber page is abstracted to its width, its height and a function
  from a bounding box to the text `within_bbox(b).extract_text()` returns
  (`none` models Python `None`).
* A pandas DataFrame of mixed-type cells is a list of rows of `Cell α`
  values, where `Cell.str` is a Python `str` cell and `Cell.other` is any
  non-string cell; `df.applymap` is `List.map` of `List.map`.
-/

/-- Python `s[::-1]`: the string with its characters in reverse order. -/
def strRev (s : String) : String := ⟨s.data.reverse⟩

/-- Python `str.splitlines()` on the underlying character list: split on
the newline character.  (Python also keeps no trailing empty piece; the
difference is invisible here because callers drop empty pieces anyway.) -/
def splitNl : List Char → List (List Char)
  | [] => [[]]
  | c :: cs =>
    if c = '\n' then [] :: splitNl cs
    else
      match splitNl cs with
      | [] => [[c]]
      | l :: ls => (c :: l) :: ls

/-- Python `str.strip()` on the underlying character list: drop leading
and trailing whitespace characters. -/
def trimChars (cs : List Char) : List Char :=
  ((cs.dropWhile Char.isWhitespace).reverse.dropWhile Char.isWhitespace).reverse

/-- Python `str.strip()`. -/
def pyStrip (s : String) : String := ⟨trimChars s.data⟩

/-- Python `str.splitlines()`. -/
def pySplitlines (s : String) : List String :=
  (splitNl s.data).map (fun l => ⟨l⟩)

/-- The line list both extractors build from a band's text:
`[line.strip() for line in text.splitlines() if line.strip()]`. -/
def cleanLines (text : String) : List String :=
  ((pySplitlines text).map pyStrip).filter (fun l => l ≠ "")

/-- A pandas cell: either a Python `str` or any non-string value. -/
inductive Cell (α : Type) where
  | str : String → Cell α
  | other : α → Cell α
deriving DecidableEq

/-- The function `reverse_strings` maps over every cell:
`lambda x: x[::-1] if isinstance(x, str) else x`. -/
def revCell {α : Type} : Cell α → Cell α
  | Cell.str s => Cell.str (strRev s)
  | c => c

/-- `reverse_strings(df)`: reverse every string cell of a DataFrame,
leave every other cell unchanged (`df.applymap(...)`). -/
def reverse_strings {α : Type} (df : List (List (Cell α))) : List (List (Cell α)) :=
  df.map (fun row => row.map revCell)

/-- A bounding box `(x0, y0, x1, y1)` in page coordinates. -/
structure Rect where
  x0 : ℚ
  y0 : ℚ
  x1 : ℚ
  y1 : ℚ
deriving DecidableEq

/-- A pdfplumber page: width, height, and the text extracted from any
sub-rectangle (`page.within_bbox(b).extract_text()`; `none` models
Python `None`). -/
structure Page where
  width : ℚ
  height : ℚ
  extractText : Rect → Option String

/-- The header band `(0, max(y0 - height_above, 0), page_width, y0)`
built by `extract_header_above_table`. -/
def header_bbox (page : Page) (table_bbox : Rect) (height_above : ℚ) : Rect :=
  ⟨0, max (table_bbox.y0 - height_above) 0, page.width, table_bbox.y0⟩

/-- The footer band `(0, y1, page_width, min(y1 + height_scan, page_height))`
built by `extract_lines_below_table`. -/
def footer_bbox (page : Page) (table_bbox : Rect) (height_scan : ℚ) : Rect :=
  ⟨0, table_bbox.y1, page.width, min (table_bbox.y1 + height_scan) page.height⟩

/-- `extract_header_above_table(page, table_bbox, height_above)`:
the two (reversed) title lines found in the header band. -/
def extract_header_above_table (page : Page) (table_bbox : Rect)
    (height_above : ℚ) : String × String :=
  match page.extractText (header_bbox page table_bbox height_above) with
  | none => ("", "")
  | some text =>
    if text = "" then ("", "")
    else
      let lines := cleanLines text
      let first_line := if 0 < lines.length then strRev (lines.getD 0 ("")) else ("")
      let second_line := if 1 < lines.length then strRev (lines.getD 1 ("")) else ("")
      (first_line, second_line)

/-- `extract_lines_below_table(page, table_bbox, height_scan)`: lines
3–5 of the footer band, reversed and combined into one string. -/
def extract_lines_below_table (page : Page) (table_bbox : Rect)
    (height_scan : ℚ) : String :=
  match page.extractText (footer_bbox page table_bbox height_scan) with
  | none => ""
  | some text =>
    if text = "" then ("")
    else
      let lines := cleanLines text
      let third_line := if 2 < lines.length then strRev (lines.getD 2 ("")) else ("")
      let fourth_line := if 3 < lines.length then strRev (lines.getD 3 ("")) else ("")
      let fifth_line := if 4 < lines.length then strRev (lines.getD 4 ("")) else ("")
      [fourth_line, fifth_line].foldl
        (fun combined l => if l ≠ "" then combined ++ "\n" ++ l else combined)
        third_line

/-- A row of the output DataFrame. -/
abbrev Row := List (Cell Int)

/-- A DataFrame of mixed string/integer cells. -/
abbrev DF := List Row

/-- Adding the six metadata columns to one row of a table's DataFrame
(`i` is the 0-based row position, so the `"ردیف"` value is `i + 1`). -/
def annotate_row (page_num : Int) (reshte title1 title2 footnote : String)
    (i : ℕ) (row : Row) : Row :=
  row ++ [Cell.other page_num, Cell.other ((i : Int) + 1), Cell.str reshte,
          Cell.str title1, Cell.str title2, Cell.str footnote]

/-- The body of `process_pdf`'s table loop for one `(table, table_obj)`
pair: build the DataFrame, `reverse_strings` it, extract header and
footer text (with the call sites' default heights 60 and 70), and add
the six metadata columns. -/
def process_table (page : Page) (page_num : Int) (reshte : String)
    (table : DF) (bbox : Rect) : DF :=
  let df := reverse_strings table
  let header := extract_header_above_table page bbox 60
  let footer := extract_lines_below_table page bbox 70
  df.enum.map (fun p => annotate_row page_num reshte header.1 header.2 footer p.1 p.2)

/-- The body of `process_pdf`'s page loop: process the tables only when
`tables` and `table_objs` are both non-empty and of equal length, skip
empty tables, and concatenate.  `none` models "no file is written for
this page"; `some rows` models the rows written to the page's file. -/
def process_page (page : Page) (page_num : Int) (reshte : String)
    (tables : List DF) (table_objs : List Rect) : Option DF :=
  let all_dfs : List DF :=
    if tables ≠ [] ∧ table_objs ≠ [] ∧ tables.length = table_objs.length then
      (tables.zip table_objs).filterMap
        (fun p => if p.1 = [] then none else some (process_table page page_num reshte p.1 p.2))
    else []
  if all_dfs = [] then none else some all_dfs.flatten

/-- One page's worth of input to `process_pdf`: the page object together
with what `page.extract_tables()` and `page.find_tables()` return. -/
structure PageInput where
  page : Page
  tables : List DF
  table_objs : List Rect

/-- `process_pdf(pdf_path, reshte)` after PDF parsing: pages are numbered
from 1 (`enumerate(pdf.pages, start=1)`) and each yields an optional
output file. -/
def process_pdf (pages : List PageInput) (reshte : String) : List (ℕ × Option DF) :=
  pages.enum.map
    (fun p => (p.1 + 1, process_page p.2.page ((p.1 : Int) + 1) reshte p.2.tables p.2.table_objs))

/-- The `"ردیف"` (row index) metadata cell of an annotated row: the
second of the six trailing metadata cells. -/
def row_index_cell (row : Row) : Option (Cell Int) := row[row.length - 5]?

example : cleanLines ("A\nB\nC\nD\nE") = ["A", "B", "C", "D", "E"] := by decide

example : cleanLines (" A \n\n  \n B") = ["A", "B"] := by decide

example : strRev ("abc") = "cba" := by decide

/-! ### Helper lemmas about the string primitives -/

lemma string_eq_of_data (a b : String) (h : a.data = b.data) : a = b := by
  cases a
  cases b
  exact congrArg String.mk h

lemma strRev_data (s : String) : (strRev s).data = s.data.reverse := rfl

lemma strRev_strRev (s : String) : strRev (strRev s) = s := by
  apply string_eq_of_data
  show s.data.reverse.reverse = s.data
  exact List.reverse_reverse _

lemma strRev_length (s : String) : (strRev s).length = s.length := by
  show s.data.reverse.length = s.data.length
  exact List.length_reverse _

lemma strRev_eq_empty_iff (s : String) : strRev s = "" ↔ s = "" := by
  constructor
  · intro h
    have h2 : s.data.reverse = ([] : List Char) := congrArg String.data h
    rw [List.reverse_eq_nil_iff] at h2
    exact string_eq_of_data s ("") h2
  · intro h
    subst h
    rfl

lemma head?_dropWhile_not {α : Type} (p : α → Bool) (l : List α) (a : α)
    (h : (l.dropWhile p).head? = some a) : p a = false := by
  induction l with
  | nil => simp at h
  | cons x xs ih =>
    rw [List.dropWhile_cons] at h
    by_cases hp : p x = true
    · rw [if_pos hp] at h
      exact ih h
    · rw [if_neg hp] at h
      simp only [List.head?_cons, Option.some.injEq] at h
      subst h
      exact Bool.eq_false_iff.mpr hp

lemma trimChars_getLast_not_ws (cs : List Char) (c : Char)
    (h : (trimChars cs).getLast? = some c) : c.isWhitespace = false := by
  unfold trimChars at h
  rw [List.getLast?_reverse] at h
  cases hl : ((cs.dropWhile Char.isWhitespace).reverse.dropWhile Char.isWhitespace) with
  | nil => rw [hl] at h; simp at h
  | cons b bs =>
    rw [hl] at h
    simp only [List.head?_cons, Option.some.injEq] at h
    have hb := head?_dropWhile_not Char.isWhitespace
      (cs.dropWhile Char.isWhitespace).reverse b (by rw [hl]; rfl)
    rwa [h] at hb

lemma trimChars_eq_nil_of_ws (cs : List Char)
    (h : ∀ c ∈ cs, c.isWhitespace = true) : trimChars cs = [] := by
  unfold trimChars
  have h1 : cs.dropWhile Char.isWhitespace = [] :=
    List.dropWhile_eq_nil_iff.mpr h
  rw [h1]
  rfl

lemma mem_splitNl {cs pc : List Char} (hpc : pc ∈ splitNl cs) :
    ∀ a ∈ pc, a ∈ cs := by
  induction cs generalizing pc with
  | nil =>
    simp only [splitNl, List.mem_singleton] at hpc
    subst hpc
    intro a ha
    simp at ha
  | cons c cs ih =>
    simp only [splitNl] at hpc
    by_cases hc : c = '\n'
    · rw [if_pos hc] at hpc
      rcases List.mem_cons.mp hpc with h | h
      · subst h
        intro a ha
        simp at ha
      · intro a ha
        exact List.mem_cons_of_mem _ (ih h a ha)
    · rw [if_neg hc] at hpc
      rcases hsp : splitNl cs with _ | ⟨l, ls⟩
      · rw [hsp] at hpc
        simp only [List.mem_singleton] at hpc
        subst hpc
        intro a ha
        rcases List.mem_singleton.mp ha with rfl
        exact List.mem_cons_self _ _
      · rw [hsp] at hpc
        rcases List.mem_cons.mp hpc with h | h
        · subst h
          intro a ha
          rcases List.mem_cons.mp ha with rfl | h2
          · exact List.mem_cons_self _ _
          · exact List.mem_cons_of_mem _
              (ih (hsp ▸ List.mem_cons_self l ls) a h2)
        · exact fun a ha => List.mem_cons_of_mem _
            (ih (hsp ▸ List.mem_cons_of_mem l h) a ha)

lemma cleanLines_empty : cleanLines ("") = [] := rfl

lemma cleanLines_eq_nil_of_ws (s : String)
    (h : ∀ c ∈ s.data, c.isWhitespace = true) : cleanLines s = [] := by
  unfold cleanLines pySplitlines
  rw [List.filter_eq_nil_iff]
  intro l hl
  rcases List.mem_map.mp hl with ⟨p, hp, rfl⟩
  rcases List.mem_map.mp hp with ⟨pc, hpc, rfl⟩
  have htrim : trimChars pc = [] :=
    trimChars_eq_nil_of_ws pc (fun a ha => h a (mem_splitNl hpc a ha))
  simp [pyStrip, htrim]

lemma mem_cleanLines {s l : String} (h : l ∈ cleanLines s) :
    l ≠ "" ∧ ∃ pc : List Char, l.data = trimChars pc := by
  unfold cleanLines at h
  rcases List.mem_filter.mp h with ⟨hmem, hne⟩
  refine ⟨by simpa using hne, ?_⟩
  rcases List.mem_map.mp hmem with ⟨p, hp, rfl⟩
  rcases List.mem_map.mp hp with ⟨pc, _, rfl⟩
  exact ⟨pc, rfl⟩

lemma revCell_revCell {α : Type} (c : Cell α) : revCell (revCell c) = c := by
  cases c with
  | str s => simp [revCell, strRev_strRev]
  | other a => rfl

lemma data_ne_nil_of_ne_empty {s : String} (h : s ≠ "") : s.data ≠ [] := by
  intro hd
  exact h (string_eq_of_data s ("") hd)

lemma cleanLines_ne_of_eq_cons {s : String} {l1 : String} {rest : List String}
    (h : cleanLines s = l1 :: rest) : s ≠ "" := by
  intro hs
  subst hs
  rw [cleanLines_empty] at h
  exact List.noConfusion h

/-! ### Characterizations of the two band extractors -/

lemma extract_header_of_none (page : Page) (bbox : Rect) (ha : ℚ)
    (hext : page.extractText (header_bbox page bbox ha) = none) :
    extract_header_above_table page bbox ha = ("", "") := by
  unfold extract_header_above_table
  rw [hext]

lemma extract_header_of_some (page : Page) (bbox : Rect) (ha : ℚ) (text : String)
    (hext : page.extractText (header_bbox page bbox ha) = some text)
    (htext : text ≠ "") :
    extract_header_above_table page bbox ha =
      (if 0 < (cleanLines text).length then strRev ((cleanLines text).getD 0 ("")) else (""),
       if 1 < (cleanLines text).length then strRev ((cleanLines text).getD 1 ("")) else ("")) := by
  unfold extract_header_above_table
  rw [hext]
  simp only []
  rw [if_neg htext]

lemma extract_header_of_empty (page : Page) (bbox : Rect) (ha : ℚ)
    (hext : page.extractText (header_bbox page bbox ha) = some ("")) :
    extract_header_above_table page bbox ha = ("", "") := by
  unfold extract_header_above_table
  rw [hext]
  rfl

lemma extract_footer_of_none (page : Page) (bbox : Rect) (hscan : ℚ)
    (hext : page.extractText (footer_bbox page bbox hscan) = none) :
    extract_lines_below_table page bbox hscan = "" := by
  unfold extract_lines_below_table
  rw [hext]

lemma extract_footer_of_empty (page : Page) (bbox : Rect) (hscan : ℚ)
    (hext : page.extractText (footer_bbox page bbox hscan) = some ("")) :
    extract_lines_below_table page bbox hscan = "" := by
  unfold extract_lines_below_table
  rw [hext]
  rfl

lemma extract_footer_of_some (page : Page) (bbox : Rect) (hscan : ℚ) (text : String)
    (hext : page.extractText (footer_bbox page bbox hscan) = some text)
    (htext : text ≠ "") :
    extract_lines_below_table page bbox hscan =
      [if 3 < (cleanLines text).length then strRev ((cleanLines text).getD 3 ("")) else (""),
       if 4 < (cleanLines text).length then strRev ((cleanLines text).getD 4 ("")) else ("")].foldl
        (fun combined l => if l ≠ "" then combined ++ "\n" ++ l else combined)
        (if 2 < (cleanLines text).length then strRev ((cleanLines text).getD 2 ("")) else ("")) := by
  unfold extract_lines_below_table
  rw [hext]
  simp only []
  rw [if_neg htext]

lemma strRev_ne_empty {l : String} (h : l ≠ "") : strRev l ≠ "" := by
  intro hc
  exact h ((strRev_eq_empty_iff l).mp hc)

/-! ### Concrete pages used to instantiate the claim theorems -/

/-- A page whose text extraction always yields one line `"Title"`. -/
def pageTitleOne : Page := ⟨600, 800, fun _ => some ("  Title  ")⟩

/-- A page whose text extraction always yields five lines `A`–`E`. -/
def pageFive : Page := ⟨600, 800, fun _ => some ("A\nB\nC\nD\nE")⟩

/-- A page whose text extraction yields non-empty whitespace-only text. -/
def pageBlank : Page := ⟨600, 800, fun _ => some ("  \n \n")⟩

/-- A sample table bounding box. -/
def rectEx : Rect := ⟨40, 100, 500, 200⟩

/-! ### Claim theorems -/

/-- C2: the header band is the rectangle
`(0, max(y0 - height_above, 0), W, y0)` — its top coordinate is clipped
at 0 and never negative — and the footer band is the rectangle
`(0, y1, W, min(y1 + height_scan, H))`, clipped to the page's bottom
edge; both bands span the full page width. -/
theorem band_geometry (page : Page) (tb : Rect) (height_above height_scan : ℚ) :
    header_bbox page tb height_above =
      ⟨0, max (tb.y0 - height_above) 0, page.width, tb.y0⟩ ∧
    0 ≤ (header_bbox page tb height_above).y0 ∧
    footer_bbox page tb height_scan =
      ⟨0, tb.y1, page.width, min (tb.y1 + height_scan) page.height⟩ ∧
    (footer_bbox page tb height_scan).y1 ≤ page.height ∧
    (header_bbox page tb height_above).x0 = 0 ∧
    (header_bbox page tb height_above).x1 = page.width ∧
    (footer_bbox page tb height_scan).x0 = 0 ∧
    (footer_bbox page tb height_scan).x1 = page.width :=
  ⟨rfl, le_max_right _ _, rfl, min_le_right _ _, rfl, rfl, rfl, rfl⟩

/-- C4: `reverse_strings` applied twice is the identity, it preserves
the shape of the record set (number of rows and every row's length),
it maps every non-string cell to itself, it maps a string cell to its
character-reversed string, and the reversed string has the same length
with the characters in reverse order. -/
theorem reverse_strings_ok {α : Type} (df : List (List (Cell α))) :
    reverse_strings (reverse_strings df) = df ∧
    (reverse_strings df).length = df.length ∧
    (∀ i : ℕ, ((reverse_strings df)[i]?).map List.length = (df[i]?).map List.length) ∧
    (∀ a : α, revCell (Cell.other a : Cell α) = Cell.other a) ∧
    (∀ s : String, revCell (Cell.str s : Cell α) = Cell.str (strRev s)) ∧
    (∀ s : String, (strRev s).length = s.length ∧ (strRev s).data = s.data.reverse) := by
  refine ⟨?_, ?_, ?_, fun a => rfl, fun s => rfl, fun s => ⟨strRev_length s, rfl⟩⟩
  · simp [reverse_strings, List.map_map, Function.comp_def, revCell_revCell]
  · simp [reverse_strings]
  · intro i
    simp [reverse_strings, List.getElem?_map, Option.map_map, Function.comp_def]

/-- C6: `extract_header_above_table` returns two empty strings when no
text is extracted from the header band (or the band's line list is
empty); with exactly one trimmed non-empty line it returns
`(reverse(line1), "")`; and in general it returns the first and second
trimmed non-empty lines, each reversed character-by-character, with the
empty string substituted for any missing line. -/
theorem resolve_title_ok (page : Page) (bbox : Rect) (ha : ℚ) :
    (page.extractText (header_bbox page bbox ha) = none →
      extract_header_above_table page bbox ha = ("", "")) ∧
    (page.extractText (header_bbox page bbox ha) = some ("") →
      extract_header_above_table page bbox ha = ("", "")) ∧
    (∀ text, page.extractText (header_bbox page bbox ha) = some text →
      cleanLines text = [] →
      extract_header_above_table page bbox ha = ("", "")) ∧
    (∀ text l1, page.extractText (header_bbox page bbox ha) = some text →
      cleanLines text = [l1] →
      extract_header_above_table page bbox ha = (strRev l1, "")) ∧
    (∀ text l1 l2 rest, page.extractText (header_bbox page bbox ha) = some text →
      cleanLines text = l1 :: l2 :: rest →
      extract_header_above_table page bbox ha = (strRev l1, strRev l2)) := by
  refine ⟨extract_header_of_none page bbox ha, extract_header_of_empty page bbox ha, ?_, ?_, ?_⟩
  · intro text hext hlines
    by_cases htext : text = ""
    · subst htext
      exact extract_header_of_empty page bbox ha hext
    · rw [extract_header_of_some page bbox ha text hext htext, hlines]
      rfl
  · intro text l1 hext hlines
    rw [extract_header_of_some page bbox ha text hext (cleanLines_ne_of_eq_cons hlines), hlines]
    rfl
  · intro text l1 l2 rest hext hlines
    rw [extract_header_of_some page bbox ha text hext (cleanLines_ne_of_eq_cons hlines), hlines]
    simp

/-- C6 witness: a header band holding the single line `"Title"` yields
the reversed line and an empty second line. -/
theorem resolve_title_ok_witness :
    extract_header_above_table pageTitleOne rectEx 60 = (strRev ("Title"), "") :=
  (resolve_title_ok pageTitleOne rectEx 60).2.2.2.1 ("  Title  ") "Title" rfl (by decide)

/-- C1: `extract_lines_below_table` returns the empty string when the
footer band has no extractable text or fewer than three trimmed
non-empty lines; with lines `l1..l5` (and possibly more) it returns
`reverse(l3) ++ "\n" ++ reverse(l4) ++ "\n" ++ reverse(l5)`; with
exactly four lines `reverse(l3) ++ "\n" ++ reverse(l4)`; with exactly
three lines `reverse(l3)` — i.e. it takes the lines at 0-indexed
positions 2, 3, 4, reverses each, starts with the 3rd line and appends
the 4th and 5th each on a new line when present. -/
theorem resolve_footnote_ok (page : Page) (bbox : Rect) (hscan : ℚ) :
    (page.extractText (footer_bbox page bbox hscan) = none →
      extract_lines_below_table page bbox hscan = "") ∧
    (page.extractText (footer_bbox page bbox hscan) = some ("") →
      extract_lines_below_table page bbox hscan = "") ∧
    (∀ text, page.extractText (footer_bbox page bbox hscan) = some text →
      (cleanLines text).length ≤ 2 →
      extract_lines_below_table page bbox hscan = "") ∧
    (∀ text l1 l2 l3, page.extractText (footer_bbox page bbox hscan) = some text →
      cleanLines text = [l1, l2, l3] →
      extract_lines_below_table page bbox hscan = strRev l3) ∧
    (∀ text l1 l2 l3 l4, page.extractText (footer_bbox page bbox hscan) = some text →
      cleanLines text = [l1, l2, l3, l4] →
      extract_lines_below_table page bbox hscan = strRev l3 ++ "\n" ++ strRev l4) ∧
    (∀ text l1 l2 l3 l4 l5 rest, page.extractText (footer_bbox page bbox hscan) = some text →
      cleanLines text = l1 :: l2 :: l3 :: l4 :: l5 :: rest →
      extract_lines_below_table page bbox hscan =
        strRev l3 ++ "\n" ++ strRev l4 ++ "\n" ++ strRev l5) := by
  refine ⟨extract_footer_of_none page bbox hscan, extract_footer_of_empty page bbox hscan,
    ?_, ?_, ?_, ?_⟩
  · intro text hext hlen
    by_cases htext : text = ""
    · subst htext
      exact extract_footer_of_empty page bbox hscan hext
    · rw [extract_footer_of_some page bbox hscan text hext htext]
      have h2 : ¬ 2 < (cleanLines text).length := by omega
      have h3 : ¬ 3 < (cleanLines text).length := by omega
      have h4 : ¬ 4 < (cleanLines text).length := by omega
      simp [h2, h3, h4]
  · intro text l1 l2 l3 hext hlines
    rw [extract_footer_of_some page bbox hscan text hext (cleanLines_ne_of_eq_cons hlines),
      hlines]
    simp
  · intro text l1 l2 l3 l4 hext hlines
    have hl4 : strRev l4 ≠ "" :=
      strRev_ne_empty (mem_cleanLines (by rw [hlines]; simp)).1
    rw [extract_footer_of_some page bbox hscan text hext (cleanLines_ne_of_eq_cons hlines),
      hlines]
    simp [hl4]
  · intro text l1 l2 l3 l4 l5 rest hext hlines
    have hl4 : strRev l4 ≠ "" :=
      strRev_ne_empty (mem_cleanLines (s := text) (by rw [hlines]; simp)).1
    have hl5 : strRev l5 ≠ "" :=
      strRev_ne_empty (mem_cleanLines (s := text) (by rw [hlines]; simp)).1
    rw [extract_footer_of_some page bbox hscan text hext (cleanLines_ne_of_eq_cons hlines),
      hlines]
    simp [hl4, hl5]

/-- C1 witness: a footer band holding the five lines `A`–`E` yields the
3rd, 4th and 5th lines reversed and newline-joined. -/
theorem resolve_footnote_ok_witness :
    extract_lines_below_table pageFive rectEx 70 =
      strRev ("C") ++ "\n" ++ strRev ("D") ++ "\n" ++ strRev ("E") :=
  (resolve_footnote_ok pageFive rectEx 70).2.2.2.2.2 ("A\nB\nC\nD\nE") "A" "B" "C" "D" "E" []
    rfl (by decide)

/-- C10: non-empty but whitespace-only band text yields zero trimmed
non-empty lines, so `extract_header_above_table` still returns two
empty strings and `extract_lines_below_table` still returns the empty
string. -/
theorem whitespace_only_ok (page : Page) (bbox : Rect) (ha hscan : ℚ) (t : String)
    (htne : t ≠ "") (hws : ∀ c ∈ t.data, c.isWhitespace = true) :
    (page.extractText (header_bbox page bbox ha) = some t →
      extract_header_above_table page bbox ha = ("", "")) ∧
    (page.extractText (footer_bbox page bbox hscan) = some t →
      extract_lines_below_table page bbox hscan = "") := by
  have hnil : cleanLines t = [] := cleanLines_eq_nil_of_ws t hws
  constructor
  · intro hext
    rw [extract_header_of_some page bbox ha t hext htne, hnil]
    rfl
  · intro hext
    rw [extract_footer_of_some page bbox hscan t hext htne, hnil]
    rfl

/-- C10 witness: the whitespace-only text `"  \n \n"` degrades to empty
title lines and an empty footnote. -/
theorem whitespace_only_ok_witness :
    extract_header_above_table pageBlank rectEx 60 = ("", "") ∧
    extract_lines_below_table pageBlank rectEx 70 = "" :=
  ⟨(whitespace_only_ok pageBlank rectEx 60 70 ("  \n \n") (by decide) (by decide)).1 rfl,
   (whitespace_only_ok pageBlank rectEx 60 70 ("  \n \n") (by decide) (by decide)).2 rfl⟩

lemma head?_append_left {α : Type} {l l2 : List α} (h : l ≠ []) :
    (l ++ l2).head? = l.head? := by
  cases l with
  | nil => exact absurd rfl h
  | cons x xs => rfl

lemma str_append_data_ne (x y : String) (hx : x.data ≠ []) : (x ++ y).data ≠ [] := by
  rw [String.data_append]
  intro h
  exact hx (List.append_eq_nil.mp h).1

lemma str_append_head (x y : String) (hx : x.data ≠ []) :
    (x ++ y).data.head? = x.data.head? := by
  rw [String.data_append]
  exact head?_append_left hx

lemma combined_head (a b base : String) (hbase : base.data ≠ []) :
    ([a, b].foldl (fun combined l => if l ≠ "" then combined ++ "\n" ++ l else combined)
      base).data.head? = base.data.head? := by
  simp only [List.foldl_cons, List.foldl_nil]
  by_cases hA : a ≠ ""
  · by_cases hB : b ≠ ""
    · rw [if_pos hA, if_pos hB]
      have n1 := str_append_data_ne base ("\n") hbase
      have n2 := str_append_data_ne _ a n1
      have n3 := str_append_data_ne _ ("\n") n2
      rw [str_append_head _ b n3, str_append_head _ ("\n") n2,
        str_append_head _ a n1, str_append_head _ ("\n") hbase]
    · rw [if_pos hA, if_neg hB]
      have n1 := str_append_data_ne base ("\n") hbase
      rw [str_append_head _ a n1, str_append_head _ ("\n") hbase]
  · by_cases hB : b ≠ ""
    · rw [if_neg hA, if_pos hB]
      have n1 := str_append_data_ne base ("\n") hbase
      rw [str_append_head _ b n1, str_append_head _ ("\n") hbase]
    · rw [if_neg hA, if_neg hB]

/-- C9: the combined footnote never begins with a newline character:
the line list is filtered to non-empty trimmed lines, so whenever a 4th
or 5th line exists the 3rd line is non-empty and a `"\n"` separator is
only appended after a non-empty base whose first character is the last
character of a trimmed line, which is not whitespace. -/
theorem footnote_no_leading_newline (page : Page) (bbox : Rect) (hscan : ℚ) :
    (extract_lines_below_table page bbox hscan).data.head? ≠ some '\n' := by
  cases hext : page.extractText (footer_bbox page bbox hscan) with
  | none =>
    rw [extract_footer_of_none page bbox hscan hext]
    simp
  | some text =>
    by_cases htext : text = ""
    · subst htext
      rw [extract_footer_of_empty page bbox hscan hext]
      simp
    · rw [extract_footer_of_some page bbox hscan text hext htext]
      by_cases h2 : 2 < (cleanLines text).length
      · have hmem : (cleanLines text).getD 2 ("") ∈ cleanLines text := by
          rw [List.getD_eq_getElem _ _ h2]
          exact List.getElem_mem h2
        obtain ⟨hne, pc, htrim⟩ := mem_cleanLines hmem
        rw [if_pos h2]
        have hdata : (strRev ((cleanLines text).getD 2 (""))).data ≠ [] := by
          rw [strRev_data]
          intro h
          exact data_ne_nil_of_ne_empty hne (List.reverse_eq_nil_iff.mp h)
        rw [combined_head _ _ _ hdata]
        rw [strRev_data, List.head?_reverse, htrim]
        intro hcontra
        have hws := trimChars_getLast_not_ws pc '\n' hcontra
        rw [show ('\n'.isWhitespace = true) from by decide] at hws
        exact Bool.noConfusion hws
      · rw [if_neg h2, if_neg (by omega), if_neg (by omega)]
        simp

/-- C3: when the table-grid list and the table-geometry list differ in
length, the page's guard fails, no table is processed, zero output rows
are produced and no output file is written (`none`). -/
theorem mismatch_guard (page : Page) (page_num : Int) (reshte : String)
    (tables : List DF) (table_objs : List Rect)
    (hmis : tables.length ≠ table_objs.length) :
    process_page page page_num reshte tables table_objs = none := by
  unfold process_page
  have hcond : ¬ (tables ≠ [] ∧ table_objs ≠ [] ∧ tables.length = table_objs.length) := by
    rintro ⟨-, -, h⟩
    exact hmis h
  rw [if_neg hcond]
  rfl

/-- C3 witness: two grids but one geometry object yield no output. -/
theorem mismatch_guard_witness :
    process_page pageFive 1 ("honar") [[[Cell.str ("a")]], [[Cell.str ("b")]]] [rectEx] = none :=
  mismatch_guard pageFive 1 ("honar") [[[Cell.str ("a")]], [[Cell.str ("b")]]] [rectEx] (by decide)

lemma row_index_cell_annotate (page_num : Int) (reshte t1 t2 footnote : String)
    (i : ℕ) (row : Row) :
    row_index_cell (annotate_row page_num reshte t1 t2 footnote i row) =
      some (Cell.other ((i : ℕ) + 1 : Int)) := by
  unfold row_index_cell annotate_row
  rw [List.length_append]
  rw [List.getElem?_append_right (by simp)]
  have h1 : row.length + ([Cell.other page_num, Cell.other ((i : Int) + 1), Cell.str reshte,
      Cell.str t1, Cell.str t2, Cell.str footnote] : Row).length - 5 - row.length = 1 := by
    simp
  rw [h1]
  norm_num

lemma enum_map_const_index {α β : Type} (l : List α) (g : ℕ → β) :
    l.enum.map (fun p => g p.1) = (List.range l.length).map g := by
  rw [← List.enum_map_fst l, List.map_map]
  rfl

lemma process_table_row_index (page : Page) (page_num : Int) (reshte : String)
    (table : DF) (bbox : Rect) :
    (process_table page page_num reshte table bbox).map row_index_cell
      = (List.range table.length).map (fun i => some (Cell.other ((i : ℕ) + 1 : Int))) := by
  simp only [process_table]
  rw [List.map_map]
  have hpt : ((reverse_strings table).enum).map
      (row_index_cell ∘ fun p : ℕ × Row => annotate_row page_num reshte
        (extract_header_above_table page bbox 60).1
        (extract_header_above_table page bbox 60).2
        (extract_lines_below_table page bbox 70) p.1 p.2) =
      ((reverse_strings table).enum).map
        (fun p : ℕ × Row => some (Cell.other ((p.1 : ℕ) + 1 : Int))) :=
    List.map_congr_left (fun p _ => row_index_cell_annotate _ _ _ _ _ p.1 p.2)
  rw [hpt]
  have hidx := enum_map_const_index (reverse_strings table)
    (fun i => some (Cell.other ((i : ℕ) + 1 : Int)))
  rw [show (reverse_strings table).length = table.length from by simp [reverse_strings]] at hidx
  exact hidx

lemma process_page_pair (page : Page) (page_num : Int) (reshte : String)
    (t1 t2 : DF) (b1 b2 : Rect) (ht1 : t1 ≠ []) (ht2 : t2 ≠ []) :
    process_page page page_num reshte [t1, t2] [b1, b2] =
      some (process_table page page_num reshte t1 b1 ++
            process_table page page_num reshte t2 b2) := by
  simp [process_page, ht1, ht2, List.filterMap_cons]

/-- C5: the row-index metadata column of every processed table is
numbered `1..N` locally (restarting at 1 for every table), and
concatenating two 3-row tables yields a combined row-index column
reading `1,2,3,1,2,3`, never `1,2,3,4,5,6`. -/
theorem row_index_locality (page : Page) (page_num : Int) (reshte : String) :
    (∀ table bbox, (process_table page page_num reshte table bbox).map row_index_cell
      = (List.range table.length).map (fun i => some (Cell.other ((i : ℕ) + 1 : Int)))) ∧
    (∀ t1 t2 b1 b2, t1.length = 3 → t2.length = 3 →
      (process_page page page_num reshte [t1, t2] [b1, b2]).map
          (fun rows => rows.map row_index_cell)
        = some ([1, 2, 3, 1, 2, 3].map (fun n : Int => some (Cell.other n)))) := by
  refine ⟨process_table_row_index page page_num reshte, ?_⟩
  intro t1 t2 b1 b2 h1 h2
  have ht1 : t1 ≠ [] := by
    intro h
    rw [h] at h1
    simp at h1
  have ht2 : t2 ≠ [] := by
    intro h
    rw [h] at h2
    simp at h2
  rw [process_page_pair page page_num reshte t1 t2 b1 b2 ht1 ht2]
  simp only [Option.map_some']
  rw [List.map_append, process_table_row_index, process_table_row_index, h1, h2]
  decide

/-- C5 witness: two concrete 3-row tables give the combined row-index
column `1,2,3,1,2,3`. -/
theorem row_index_locality_witness :
    (process_page pageFive 1 ("honar")
        [[[Cell.str ("a")], [Cell.str ("b")], [Cell.str ("c")]],
         [[Cell.str ("d")], [Cell.str ("e")], [Cell.str ("f")]]] [rectEx, rectEx]).map
        (fun rows => rows.map row_index_cell)
      = some ([1, 2, 3, 1, 2, 3].map (fun n : Int => some (Cell.other n))) :=
  (row_index_locality pageFive 1 ("honar")).2
    [[Cell.str ("a")], [Cell.str ("b")], [Cell.str ("c")]]
    [[Cell.str ("d")], [Cell.str ("e")], [Cell.str ("f")]] rectEx rectEx rfl rfl

lemma mem_process_table {page : Page} {page_num : Int} {reshte : String}
    {table : DF} {bbox : Rect} {row : Row}
    (h : row ∈ process_table page page_num reshte table bbox) :
    ∃ (orig : Row) (i : ℕ), row = annotate_row page_num reshte
      (extract_header_above_table page bbox 60).1
      (extract_header_above_table page bbox 60).2
      (extract_lines_below_table page bbox 70) i orig := by
  simp only [process_table] at h
  rcases List.mem_map.mp h with ⟨p, _, rfl⟩
  exact ⟨p.2, p.1, rfl⟩

/-- C7: every row that reaches a page's output carries exactly the six
metadata fields — page number, 1-based row index, subject label, title
line 1, title line 2, combined footnote — appended after its data
cells; missing band text shows up as empty strings inside those string
fields, never as absent fields. -/
theorem six_metadata_fields (page : Page) (page_num : Int) (reshte : String)
    (tables : List DF) (table_objs : List Rect) (rows : DF)
    (hproc : process_page page page_num reshte tables table_objs = some rows) :
    ∀ row ∈ rows, ∃ (orig : Row) (i : ℕ) (t1 t2 footnote : String),
      row = orig ++ [Cell.other page_num, Cell.other ((i : Int) + 1), Cell.str reshte,
        Cell.str t1, Cell.str t2, Cell.str footnote] := by
  intro row hrow
  unfold process_page at hproc
  by_cases hcond : tables ≠ [] ∧ table_objs ≠ [] ∧ tables.length = table_objs.length
  · rw [if_pos hcond] at hproc
    by_cases hL : (tables.zip table_objs).filterMap
        (fun p => if p.1 = [] then none
          else some (process_table page page_num reshte p.1 p.2)) = []
    · rw [if_pos hL] at hproc
      exact Option.noConfusion hproc
    · rw [if_neg hL] at hproc
      rw [← Option.some.inj hproc] at hrow
      rcases List.mem_flatten.mp hrow with ⟨df, hdf, hrdf⟩
      rcases List.mem_filterMap.mp hdf with ⟨p, _, hpeq⟩
      by_cases hp1 : p.1 = []
      · rw [if_pos hp1] at hpeq
        exact Option.noConfusion hpeq
      · rw [if_neg hp1] at hpeq
        obtain rfl := Option.some.inj hpeq
        rcases mem_process_table hrdf with ⟨orig, i, rfl⟩
        exact ⟨orig, i, _, _, _, rfl⟩
  · rw [if_neg hcond] at hproc
    simp at hproc

/-- C7 witness: the single output row of a concrete one-cell table has
the six metadata cells after its data cell. -/
theorem six_metadata_fields_witness :
    ∃ (orig : Row) (i : ℕ) (t1 t2 footnote : String),
      [Cell.str ("x"), Cell.other (1 : Int), Cell.other (1 : Int), Cell.str ("honar"),
       Cell.str ("A"), Cell.str ("B"), Cell.str ("C\nD\nE")] =
        orig ++ [Cell.other (1 : Int), Cell.other ((i : Int) + 1), Cell.str ("honar"),
          Cell.str t1, Cell.str t2, Cell.str footnote] :=
  six_metadata_fields pageFive 1 ("honar") [[[Cell.str ("x")]]] [rectEx]
    [[Cell.str ("x"), Cell.other (1 : Int), Cell.other (1 : Int), Cell.str ("honar"),
      Cell.str ("A"), Cell.str ("B"), Cell.str ("C\nD\nE")]]
    (by decide) _ (by decide)

/-- C8: the Normalizer is applied exactly once per table, right after
raw cell extraction and before the metadata columns are appended: every
output row is the once-reversed data row followed by the six metadata
cells, which carry the page number and subject label unreversed and
exactly the strings the two band extractors returned; reversing the
data prefix once more recovers the raw extracted row. -/
theorem normalize_once (page : Page) (page_num : Int) (reshte : String)
    (table : DF) (bbox : Rect) :
    (process_table page page_num reshte table bbox).length = table.length ∧
    (∀ (i : ℕ) (row : Row), table[i]? = some row →
      (process_table page page_num reshte table bbox)[i]? =
        some (row.map revCell ++
          [Cell.other page_num, Cell.other ((i : Int) + 1), Cell.str reshte,
           Cell.str (extract_header_above_table page bbox 60).1,
           Cell.str (extract_header_above_table page bbox 60).2,
           Cell.str (extract_lines_below_table page bbox 70)])) ∧
    (∀ row : Row, (row.map revCell).map revCell = row) := by
  refine ⟨by simp [process_table, reverse_strings, List.enum_length], ?_, ?_⟩
  · intro i row h
    simp only [process_table]
    rw [List.getElem?_map, List.getElem?_enum]
    simp only [reverse_strings]
    rw [List.getElem?_map, h]
    rfl
  · intro row
    rw [List.map_map]
    have hpt : row.map (revCell ∘ revCell) = row.map (fun c => c) :=
      List.map_congr_left (fun c _ => revCell_revCell c)
    rw [hpt, List.map_id']

/-- C8 witness: a concrete one-row table evaluated at row 0. -/
theorem normalize_once_witness :
    (process_table pageFive 1 ("honar") [[Cell.str ("ab")]] rectEx)[0]? =
      some ([Cell.str ("ab")].map revCell ++
        [Cell.other (1 : Int), Cell.other (((0 : ℕ) : Int) + 1), Cell.str ("honar"),
         Cell.str (extract_header_above_table pageFive rectEx 60).1,
         Cell.str (extract_header_above_table pageFive rectEx 60).2,
         Cell.str (extract_lines_below_table pageFive rectEx 70)]) :=
  (normalize_once pageFive 1 ("honar") [[Cell.str ("ab")]] rectEx).2.1 0 [Cell.str ("ab")]
    (by decide)
